import Mathlib

/-!
# Verification of the `with_list2padded` adapter (thinc/layers/with_list2padded.py)

Shallow embedding of the list-to-padded shape adapter.  Sequences are
time-ordered lists of feature rows (`Arr`); a padded batch is a time-major
three-dimensional list (`PaddedArr`) paired with a per-timestep active count.

The adapter's own code (`forward`, `backprop`, `init`, `_maybe_get_padded`,
`with_list2padded`) is transcribed from the source; the numeric-backend
operation `square_sequences` is not in the provided sources, so a concrete
model of it is built from the specification (sorting by decreasing length,
time-major padding, active counts, and an unpad closure undoing the reorder).
-/

namespace ThincList2Padded

/-- One feature row (the innermost axis of an array). -/
abbrev Feats := List Int

/-- One variable-length sequence: a time-ordered list of feature rows. -/
abbrev Arr := List Feats

/-- A time-major padded batch array of shape `(max_length, batch, feats)`. -/
abbrev PaddedArr := List (List Feats)

/-- The `Padded` value handed to the inner layer: the padded data array plus
the per-timestep active-count sequence, matching `thinc.types.Padded`. -/
structure Padded where
  data : PaddedArr
  size_at_t : List Nat
deriving Repr, DecidableEq, Inhabited

/-- An inner layer, as the adapter uses it: called on a `Padded` value and a
training flag, returning a padded output and a backward closure on `Padded`. -/
abbrev Layer := Padded → Bool → Padded × (Padded → Padded)

/-- The backend operation table the adapter consults (`model.ops`); it exposes
`square_sequences`, returning the padded data array, the active-count
sequence, and the unpad closure. -/
structure Ops where
  square_sequences : List Arr → PaddedArr × List Nat × (PaddedArr → List Arr)

/-- The slice of `thinc.model.Model` the adapter touches: a name, the backend
ops, and the list of child layers. -/
structure Model where
  name : String
  ops : Ops
  layers : List Layer

/-- `with_list2padded(layer)`: builds the composite model, embedding the inner
layer's name in the composite's name and storing the inner layer as the sole
element of `layers`.  The backend ops are supplied by the framework; here they
are an explicit argument. -/
def with_list2padded (innerName : String) (layer : Layer) (ops : Ops) : Model :=
  { name := "with_list2padded-" ++ innerName, ops := ops, layers := [layer] }

/-- `forward(model, Xs, is_train)` transcribed from the source: pad `Xs` via
`model.ops.square_sequences`, call the first child layer on the resulting
`Padded` value, return the unpadded output data and a backward closure that
independently pads `dYs`, runs the layer's backward closure, and unpads with
the gradient-side unpad function. -/
def forward (model : Model) (Xs : List Arr) (is_train : Bool) :
    List Arr × (List Arr → List Arr) :=
  let r := model.ops.square_sequences Xs
  let yb := (model.layers.getD 0 default) ⟨r.1, r.2.1⟩ is_train
  let backprop : List Arr → List Arr := fun dYs =>
    let r2 := model.ops.square_sequences dYs
    let dYp := yb.2 ⟨r2.1, r2.2.1⟩
    r2.2.2 dYp.data
  (r.2.2 yb.1.data, backprop)

/-- `_maybe_get_padded(ops, seqs)` transcribed from the source: `None` stays
`None`; otherwise pad and keep only the data array and active counts. -/
def _maybe_get_padded (ops : Ops) (seqs : Option (List Arr)) : Option Padded :=
  match seqs with
  | none => none
  | some s =>
    let r := ops.square_sequences s
    some ⟨r.1, r.2.1⟩

/-- `init(model, X, Y)` transcribed from the source: it calls the inner
layer's `initialize` with the optionally padded examples.  The inner layer's
`initialize` is opaque and side-effecting, so the embedding returns the
argument pair passed to it. -/
def init (model : Model) (X Y : Option (List Arr)) :
    Option Padded × Option Padded :=
  (_maybe_get_padded model.ops X, _maybe_get_padded model.ops Y)

/-- The backward closure of `forward`, factored out as a standalone function
of the ops table and the inner layer's backward closure.  Used to state that
the closure returned by `forward` depends on nothing from the forward-side
padding. -/
def backprop_fn (ops : Ops) (backprop_layer : Padded → Padded) (dYs : List Arr) :
    List Arr :=
  let r2 := ops.square_sequences dYs
  let dYp := backprop_layer ⟨r2.1, r2.2.1⟩
  r2.2.2 dYp.data

/-! ## Concrete backend model of `square_sequences`

Modelled from the spec: `square_sequences` is provided by the numeric backend
(`thinc.backends`), whose code is not among the provided sources.  The model
follows the spec's words: sort sequences by decreasing length, build a
time-major `(max_length, batch, feats)` array, record for each timestep how
many sorted items are still active, and return an unpad closure restoring
original order and lengths. -/

/-- Modelled from the spec: the time dimension of the padded array, the
maximum sequence length in the batch. -/
def maxLen (Xs : List Arr) : Nat :=
  (Xs.map List.length).foldr max 0

/-- Modelled from the spec: the feature dimensionality, read off the first
feature row present in the batch (the spec assumes it consistent). -/
def featDim (Xs : List Arr) : Nat :=
  (Xs.flatten.headD []).length

/-- Modelled from the spec: the zero feature row used to pad short sequences
out to the maximal length. -/
def padRow (Xs : List Arr) : Feats :=
  List.replicate (featDim Xs) 0

/-- Modelled from the spec: the batch items tagged with their original
positions and stably sorted by decreasing length. -/
def sortedPairs (Xs : List Arr) : List (Nat × Arr) :=
  List.insertionSort (fun a b => b.2.length ≤ a.2.length) Xs.enum

/-- Modelled from the spec: the original index of the item at each sorted
position (the length-sort permutation). -/
def sortPerm (Xs : List Arr) : List Nat :=
  (sortedPairs Xs).map Prod.fst

/-- Modelled from the spec: the time-major padded data array; row `t` lists,
for each sorted batch item, its feature row at timestep `t`, zero-padded past
the item's length. -/
def paddedData (Xs : List Arr) : PaddedArr :=
  (List.range (maxLen Xs)).map fun t =>
    (sortedPairs Xs).map fun p => p.2.getD t (padRow Xs)

/-- Modelled from the spec: the active-count sequence; entry `t` counts the
batch items whose sequence is still active (length exceeding `t`). -/
def sizeAtT (Xs : List Arr) : List Nat :=
  (List.range (maxLen Xs)).map fun t =>
    (Xs.filter fun s => decide (t < s.length)).length

/-- Modelled from the spec: the unpad closure captured over the original
batch; given any padded array of matching shape it extracts, for original
position `i`, the column of the sorted position holding item `i`, truncated
to item `i`'s original length. -/
def unpadFn (Xs : List Arr) (p : PaddedArr) : List Arr :=
  (List.range Xs.length).map fun i =>
    (p.map fun row => row.getD ((sortPerm Xs).indexOf i) []).take
      (Xs.getD i []).length

/-- Modelled from the spec: the backend pad operation
`pad(sequences) -> (paddedArray, activeCountSequence, unpadFn)`. -/
def square_sequences (Xs : List Arr) :
    PaddedArr × List Nat × (PaddedArr → List Arr) :=
  (paddedData Xs, sizeAtT Xs, unpadFn Xs)

/-- The concrete ops table exposing the modelled `square_sequences`. -/
def concreteOps : Ops := ⟨square_sequences⟩

/-- The adapter instantiated with the modelled backend. -/
def mkModel (layer : Layer) : Model :=
  with_list2padded "inner" layer concreteOps

/-- The shape of one sequence: its per-timestep feature-row lengths. -/
def shape1 (a : Arr) : List Nat :=
  a.map List.length

/-- The shape of a padded data array: per-timestep, per-item row lengths. -/
def shapeP (p : PaddedArr) : List (List Nat) :=
  p.map fun row => row.map List.length

/-- An identity inner layer (the spec's "identity-shaped inner layer"). -/
def idLayer : Layer := fun p _ => (p, fun d => d)

/-- An inner layer violating its shape contract: it returns an empty padded
output and an empty padded input-gradient whatever it is given. -/
def badLayer : Layer := fun _ _ => (⟨[], []⟩, fun _ => ⟨[], []⟩)

/-! ## Exception-aware embedding

The Python adapter contains no `try`/`except`: an exception in a collaborator
aborts the call.  This second embedding makes the collaborators fallible
(`Except ε`) and threads failure exactly as Python exception propagation
does; the pure embedding above is its always-`ok` special case. -/

/-- An ops table whose pad operation may fail (e.g. with a shape-mismatch
error on inconsistent feature dimensionality). -/
structure OpsE (ε : Type) where
  square_sequences : List Arr → Except ε (PaddedArr × List Nat × (PaddedArr → List Arr))

/-- An inner layer whose call, backward closure, and initialization routine
(`initFn`, standing for the layer's `initialize` method) may fail. -/
structure LayerE (ε : Type) where
  call : Padded → Bool → Except ε (Padded × (Padded → Except ε Padded))
  initFn : Option Padded → Option Padded → Except ε Unit

/-- Exception propagation: evaluate a collaborator; an uncaught error aborts
the caller with that same error, otherwise the caller continues. -/
def propagate {ε α β : Type} (x : Except ε α) (f : α → Except ε β) :
    Except ε β :=
  match x with
  | .error e => .error e
  | .ok a => f a

/-- The backward closure with fallible collaborators, factored out as in
`backprop_fn`. -/
def backprop_fnE {ε : Type} (ops : OpsE ε) (backprop_layer : Padded → Except ε Padded)
    (dYs : List Arr) : Except ε (List Arr) :=
  propagate (ops.square_sequences dYs) fun r2 =>
    propagate (backprop_layer ⟨r2.1, r2.2.1⟩) fun dYp =>
      .ok (r2.2.2 dYp.data)

/-- `forward` with fallible collaborators: each collaborator failure aborts
the call with that same error, exactly as uncaught Python exceptions do. -/
def forwardE {ε : Type} (ops : OpsE ε) (layer : LayerE ε) (Xs : List Arr)
    (is_train : Bool) :
    Except ε (List Arr × (List Arr → Except ε (List Arr))) :=
  propagate (ops.square_sequences Xs) fun r =>
    propagate (layer.call ⟨r.1, r.2.1⟩ is_train) fun yb =>
      .ok (r.2.2 yb.1.data, backprop_fnE ops yb.2)

/-- `_maybe_get_padded` with a fallible pad operation. -/
def _maybe_get_paddedE {ε : Type} (ops : OpsE ε) (seqs : Option (List Arr)) :
    Except ε (Option Padded) :=
  match seqs with
  | none => .ok none
  | some s =>
    propagate (ops.square_sequences s) fun r => .ok (some ⟨r.1, r.2.1⟩)

/-- `init` with fallible collaborators: pad the optional examples (X first,
then Y, as in the source's argument evaluation order), then delegate to the
inner layer's initialization routine. -/
def initE {ε : Type} (ops : OpsE ε) (layer : LayerE ε) (X Y : Option (List Arr)) :
    Except ε Unit :=
  propagate (_maybe_get_paddedE ops X) fun px =>
    propagate (_maybe_get_paddedE ops Y) fun py =>
      layer.initFn px py

/-- An ops variant returning empty results, used to instantiate theorems at a
second ops table. -/
def emptyOps : Ops := ⟨fun _ => ([], [], fun _ => [])⟩

/-- A fallible ops table that always fails with a shape-mismatch error. -/
def failOps : OpsE String := ⟨fun _ => .error "shape mismatch"⟩

/-- A fallible inner layer that never fails. -/
def okLayerE : LayerE String :=
  ⟨fun p _ => .ok (p, fun d => .ok d), fun _ _ => .ok ()⟩

/-! ## Helper lemmas about the modelled backend -/

theorem length_sortedPairs (Xs : List Arr) :
    (sortedPairs Xs).length = Xs.length := by
  unfold sortedPairs
  rw [(List.perm_insertionSort _ _).length_eq, List.enum_length]

theorem sortPerm_perm (Xs : List Arr) :
    List.Perm (sortPerm Xs) (List.range Xs.length) := by
  unfold sortPerm sortedPairs
  have h := (List.perm_insertionSort
    (fun a b : Nat × Arr => b.2.length ≤ a.2.length) Xs.enum).map Prod.fst
  simpa using h

theorem length_sortPerm (Xs : List Arr) :
    (sortPerm Xs).length = Xs.length := by
  rw [(sortPerm_perm Xs).length_eq, List.length_range]

theorem mem_sortPerm {Xs : List Arr} {i : Nat} (h : i < Xs.length) :
    i ∈ sortPerm Xs :=
  ((sortPerm_perm Xs).mem_iff).2 (List.mem_range.2 h)

theorem indexOf_sortPerm_lt {Xs : List Arr} {i : Nat} (h : i < Xs.length) :
    (sortPerm Xs).indexOf i < Xs.length := by
  rw [← length_sortPerm]
  exact List.indexOf_lt_length.2 (mem_sortPerm h)

theorem sortedPairs_at_indexOf {Xs : List Arr} {i : Nat} (hi : i < Xs.length)
    (hj : (sortPerm Xs).indexOf i < (sortedPairs Xs).length) :
    (sortedPairs Xs)[(sortPerm Xs).indexOf i] = (i, Xs[i]) := by
  have hj' : (sortPerm Xs).indexOf i < (sortPerm Xs).length := by
    rwa [length_sortPerm, ← length_sortedPairs]
  have hfst : ((sortedPairs Xs)[(sortPerm Xs).indexOf i]).1 = i := by
    have hg := List.getElem_indexOf (a := i) (l := sortPerm Xs) hj'
    simp only [sortPerm, List.getElem_map] at hg
    exact hg
  have hmem : (sortedPairs Xs)[(sortPerm Xs).indexOf i] ∈ Xs.enum := by
    have hperm : List.Perm (sortedPairs Xs) Xs.enum := List.perm_insertionSort _ _
    exact hperm.mem_iff.1 (List.getElem_mem hj)
  have hmk : ((((sortedPairs Xs)[(sortPerm Xs).indexOf i]).1,
      ((sortedPairs Xs)[(sortPerm Xs).indexOf i]).2) : Nat × Arr) ∈ Xs.enum := by
    simpa using hmem
  rw [hfst] at hmk
  have h2 := (List.mk_mem_enum_iff_getElem?).1 hmk
  rw [List.getElem?_eq_getElem hi] at h2
  have hsnd : ((sortedPairs Xs)[(sortPerm Xs).indexOf i]).2 = Xs[i] :=
    (Option.some.injEq _ _ ▸ h2).symm
  calc (sortedPairs Xs)[(sortPerm Xs).indexOf i]
      = (((sortedPairs Xs)[(sortPerm Xs).indexOf i]).1,
         ((sortedPairs Xs)[(sortPerm Xs).indexOf i]).2) := rfl
    _ = (i, Xs[i]) := by rw [hfst, hsnd]

theorem le_foldr_max {a : Nat} {l : List Nat} (h : a ∈ l) :
    a ≤ l.foldr max 0 := by
  induction l with
  | nil => cases h
  | cons b t ih =>
    rcases List.mem_cons.1 h with rfl | h'
    · exact Nat.le_max_left _ _
    · exact Nat.le_trans (ih h') (Nat.le_max_right _ _)

theorem length_le_maxLen {Xs : List Arr} {i : Nat} (h : i < Xs.length) :
    Xs[i].length ≤ maxLen Xs :=
  le_foldr_max (List.mem_map_of_mem List.length (List.getElem_mem h))

theorem take_range_getD {s : Arr} {m : Nat} (hm : s.length ≤ m) (d : Feats) :
    (((List.range m).map fun t => s.getD t d).take s.length) = s := by
  apply List.ext_getElem
  · simp [Nat.min_eq_left hm]
  · intro n h1 h2
    simp only [List.getElem_take, List.getElem_map, List.getElem_range]
    exact List.getD_eq_getElem _ _ h2

theorem paddedData_column {Xs : List Arr} {i : Nat} (hi : i < Xs.length) :
    ((paddedData Xs).map fun row => row.getD ((sortPerm Xs).indexOf i) []) =
      (List.range (maxLen Xs)).map fun t => Xs[i].getD t (padRow Xs) := by
  unfold paddedData
  rw [List.map_map]
  apply List.map_congr_left
  intro t _
  have hj : (sortPerm Xs).indexOf i < (sortedPairs Xs).length := by
    rw [length_sortedPairs]; exact indexOf_sortPerm_lt hi
  have hlen : (sortPerm Xs).indexOf i <
      ((sortedPairs Xs).map fun p => p.2.getD t (padRow Xs)).length := by
    simpa using hj
  simp only [Function.comp]
  rw [List.getD_eq_getElem _ _ hlen, List.getElem_map,
    sortedPairs_at_indexOf hi hj]

theorem unpadFn_paddedData (Xs : List Arr) :
    unpadFn Xs (paddedData Xs) = Xs := by
  unfold unpadFn
  apply List.ext_getElem
  · simp
  · intro i h1 h2
    simp only [List.getElem_map, List.getElem_range]
    rw [paddedData_column h2, List.getD_eq_getElem _ _ h2,
      take_range_getD (length_le_maxLen h2)]

theorem countP_le_countP {α : Type} (p q : α → Bool) (l : List α)
    (h : ∀ a, p a = true → q a = true) : l.countP p ≤ l.countP q := by
  induction l with
  | nil => simp
  | cons b t ih =>
    rw [List.countP_cons, List.countP_cons]
    by_cases hb : p b = true
    · rw [if_pos hb, if_pos (h b hb)]
      omega
    · rw [if_neg hb]
      by_cases hq : q b = true
      · rw [if_pos hq]; omega
      · rw [if_neg hq]; omega

theorem sizeAtT_length_eq (Xs : List Arr) :
    (sizeAtT Xs).length = (paddedData Xs).length := by
  simp [sizeAtT, paddedData]

theorem sizeAtT_nonincreasing (Xs : List Arr) :
    List.Pairwise (fun a b => b ≤ a) (sizeAtT Xs) := by
  unfold sizeAtT
  refine List.Pairwise.map _ ?_ (List.pairwise_lt_range (maxLen Xs))
  intro t u htu
  rw [← List.countP_eq_length_filter, ← List.countP_eq_length_filter]
  exact countP_le_countP _ _ _ fun s hs => by
    simp only [decide_eq_true_eq] at hs ⊢
    omega

/-! ## Shape lemmas -/

theorem length_unpadFn (Xs : List Arr) (p : PaddedArr) :
    (unpadFn Xs p).length = Xs.length := by
  simp [unpadFn]

theorem shapeP_length {A B : PaddedArr} (h : shapeP A = shapeP B) :
    A.length = B.length := by
  have := congrArg List.length h
  simpa [shapeP] using this

theorem shapeP_getD_length {A B : PaddedArr} (h : shapeP A = shapeP B)
    (t j : Nat) :
    (((A.getD t []).getD j []).length) = (((B.getD t []).getD j []).length) := by
  by_cases ht : t < A.length
  · have htB : t < B.length := Nat.lt_of_lt_of_eq ht (shapeP_length h)
    rw [List.getD_eq_getElem _ _ ht, List.getD_eq_getElem _ _ htB]
    have hP : (A.map fun row => row.map List.length) =
        (B.map fun row => row.map List.length) := h
    have hrow : A[t].map List.length = B[t].map List.length := by
      have e1 : (A.map fun row => row.map List.length)[t]? =
          (B.map fun row => row.map List.length)[t]? := by rw [hP]
      rw [List.getElem?_map, List.getElem?_map, List.getElem?_eq_getElem ht,
        List.getElem?_eq_getElem htB] at e1
      simpa using e1
    have hrl : A[t].length = B[t].length := by
      simpa using congrArg List.length hrow
    by_cases hj : j < A[t].length
    · have hjB : j < B[t].length := Nat.lt_of_lt_of_eq hj hrl
      rw [List.getD_eq_getElem _ _ hj, List.getD_eq_getElem _ _ hjB]
      have e2 : (A[t].map List.length)[j]? = (B[t].map List.length)[j]? := by
        rw [hrow]
      rw [List.getElem?_map, List.getElem?_map, List.getElem?_eq_getElem hj,
        List.getElem?_eq_getElem hjB] at e2
      simpa using e2
    · rw [List.getD_eq_default _ _ (Nat.le_of_not_lt hj),
        List.getD_eq_default _ _ (Nat.le_of_not_lt
          (fun hc => hj (Nat.lt_of_lt_of_eq hc hrl.symm)))]
  · rw [List.getD_eq_default _ _ (Nat.le_of_not_lt ht),
      List.getD_eq_default _ _ (Nat.le_of_not_lt
        (fun hc => ht (Nat.lt_of_lt_of_eq hc (shapeP_length h).symm)))]

theorem unpadFn_shape_congr {A B : PaddedArr} (Xs : List Arr)
    (h : shapeP A = shapeP B) :
    (unpadFn Xs A).map shape1 = (unpadFn Xs B).map shape1 := by
  unfold unpadFn
  apply List.ext_getElem
  · simp
  · intro i h1 h2
    simp only [List.getElem_map, List.getElem_range]
    unfold shape1
    apply List.ext_getElem
    · simp [shapeP_length h]
    · intro t ht1 ht2
      simp only [List.getElem_map, List.getElem_take]
      have htA : t < A.length := by
        simp only [List.length_map, List.length_take, List.length_map] at ht1
        exact Nat.lt_of_lt_of_le ht1 (Nat.min_le_right _ _)
      have htB : t < B.length := Nat.lt_of_lt_of_eq htA (shapeP_length h)
      rw [← List.getD_eq_getElem A [] htA, ← List.getD_eq_getElem B [] htB]
      exact shapeP_getD_length h t _

/-! ## Exception-propagation lemmas -/

theorem propagate_eq_error {ε α β : Type} (x : Except ε α)
    (f : α → Except ε β) (e : ε) :
    propagate x f = .error e ↔
      x = .error e ∨ ∃ a, x = .ok a ∧ f a = .error e := by
  cases x with
  | error e₂ =>
    constructor
    · intro h
      have h2 : (Except.error e₂ : Except ε β) = Except.error e := h
      rw [Except.error.injEq] at h2
      subst h2
      exact Or.inl rfl
    · rintro (h | ⟨a, ha, _⟩)
      · rw [Except.error.injEq] at h
        subst h
        rfl
      · exact Except.noConfusion ha
  | ok a =>
    constructor
    · intro h
      exact Or.inr ⟨a, rfl, h⟩
    · rintro (h | ⟨a₂, ha, hf⟩)
      · exact Except.noConfusion h
      · rw [Except.ok.injEq] at ha
        subst ha
        exact hf

theorem propagate_ok_eq_error {ε α β : Type} (x : Except ε α)
    (g : α → β) (e : ε) :
    propagate x (fun a => .ok (g a)) = .error e ↔ x = .error e := by
  cases x with
  | error e₂ =>
    constructor
    · intro h
      have h2 : (Except.error e₂ : Except ε β) = Except.error e := h
      rw [Except.error.injEq] at h2
      subst h2
      rfl
    · intro h
      rw [Except.error.injEq] at h
      subst h
      rfl
  | ok a =>
    constructor
    · intro h
      exact Except.noConfusion h
    · intro h
      exact Except.noConfusion h

/-! ## Claim theorems -/

/-- C1: `forward(model, Xs, is_train)` is exactly the three-step composition:
it pads `Xs` with the backend `square_sequences`, calls the sole element of
`model.layers` on the resulting `Padded` value together with `is_train`, and
returns the forward-side unpad function applied to the padded output's
underlying data array, paired with a backward closure. -/
theorem forward_three_steps (m : Model) (Xs : List Arr) (is_train : Bool) :
    (forward m Xs is_train).1 =
      (m.ops.square_sequences Xs).2.2
        (((m.layers.getD 0 default)
          ⟨(m.ops.square_sequences Xs).1, (m.ops.square_sequences Xs).2.1⟩
          is_train).1.data) ∧
    (forward m Xs is_train).2 =
      backprop_fn m.ops
        ((m.layers.getD 0 default)
          ⟨(m.ops.square_sequences Xs).1, (m.ops.square_sequences Xs).2.1⟩
          is_train).2 :=
  ⟨rfl, rfl⟩

/-- C2: for a batch of `N` sequences, `forward` returns `N` output sequences
and the backward closure maps `N` gradient arrays to `N` input-gradient
arrays; when the gradients carry the shapes of the original inputs and the
inner backward closure preserves padded shapes, each input gradient has the
shape of the corresponding original input sequence, in original order. -/
theorem forward_backward_shape_symmetry (layer : Layer) (Xs dYs : List Arr)
    (is_train : Bool) :
    ((forward (mkModel layer) Xs is_train).1).length = Xs.length ∧
    ((forward (mkModel layer) Xs is_train).2 dYs).length = dYs.length ∧
    (dYs.map shape1 = Xs.map shape1 →
      (∀ p : Padded,
        shapeP (((layer ⟨paddedData Xs, sizeAtT Xs⟩ is_train).2 p).data) =
          shapeP p.data) →
      ((forward (mkModel layer) Xs is_train).2 dYs).map shape1 =
        Xs.map shape1) := by
  refine ⟨length_unpadFn Xs _, length_unpadFn dYs _, ?_⟩
  intro hg hbp
  have h1 : ((forward (mkModel layer) Xs is_train).2 dYs).map shape1 =
      (unpadFn dYs ((((layer ⟨paddedData Xs, sizeAtT Xs⟩ is_train).2)
        ⟨paddedData dYs, sizeAtT dYs⟩).data)).map shape1 := rfl
  rw [h1, unpadFn_shape_congr dYs (hbp ⟨paddedData dYs, sizeAtT dYs⟩),
    unpadFn_paddedData, hg]

/-- Witness for C2 at the identity inner layer, a batch of one sequence of
length one, and a gradient of the same shape. -/
theorem forward_backward_shape_symmetry_witness :
    ((forward (mkModel idLayer) [[[(7 : Int)]]] true).2 [[[(5 : Int)]]]).map
        shape1 = [[[(7 : Int)]]].map shape1 :=
  (forward_backward_shape_symmetry idLayer [[[(7 : Int)]]] [[[(5 : Int)]]]
    true).2.2 (by decide) (fun _ => rfl)

/-- C3: the backward closure returned by `forward` factors through only the
ops table and the inner layer's backward closure (so the forward-side unpad
function and active counts are never consulted); it pads `dYs` by a fresh
`square_sequences` call and unpads with the gradient-side unpad function, and
its value depends only on the pad operation's behavior at `dYs`. -/
theorem backward_fresh_pad :
    (∀ (m : Model) (Xs : List Arr) (is_train : Bool),
      (forward m Xs is_train).2 =
        backprop_fn m.ops
          ((m.layers.getD 0 default)
            ⟨(m.ops.square_sequences Xs).1, (m.ops.square_sequences Xs).2.1⟩
            is_train).2) ∧
    (∀ (ops : Ops) (bp : Padded → Padded) (dYs : List Arr),
      backprop_fn ops bp dYs =
        (ops.square_sequences dYs).2.2
          ((bp ⟨(ops.square_sequences dYs).1,
            (ops.square_sequences dYs).2.1⟩).data)) ∧
    (∀ (ops₁ ops₂ : Ops) (bp : Padded → Padded) (dYs : List Arr),
      ops₁.square_sequences dYs = ops₂.square_sequences dYs →
      backprop_fn ops₁ bp dYs = backprop_fn ops₂ bp dYs) := by
  refine ⟨fun m Xs b => rfl, fun ops bp dYs => rfl,
    fun ops₁ ops₂ bp dYs h => ?_⟩
  unfold backprop_fn
  rw [h]

/-- Witness for C3: two distinct ops tables agreeing at the empty gradient
batch give equal backward results there. -/
theorem backward_fresh_pad_witness :
    backprop_fn concreteOps (fun p => p) [] =
      backprop_fn emptyOps (fun p => p) [] :=
  backward_fresh_pad.2.2 concreteOps emptyOps (fun p => p) [] rfl

/-- C4: round trip — applying the unpad function returned by the modelled pad
operation to the padded array it produced reconstructs the original batch in
content and in original order, despite the internal reordering by length. -/
theorem unpad_pad_roundtrip (Xs : List Arr) :
    (square_sequences Xs).2.2 (square_sequences Xs).1 = Xs :=
  unpadFn_paddedData Xs

/-- C5: the active-count sequence produced by the modelled pad operation is
non-increasing and its length equals the time dimension of the padded array;
the adapter hands it unchanged, inside the `Padded` value, to the inner
layer. -/
theorem size_at_t_invariant (Xs : List Arr) :
    ((square_sequences Xs).2.1).length = ((square_sequences Xs).1).length ∧
    List.Pairwise (fun a b => b ≤ a) ((square_sequences Xs).2.1) ∧
    (∀ (layer : Layer) (is_train : Bool),
      forward (mkModel layer) Xs is_train =
        (unpadFn Xs ((layer ⟨paddedData Xs, sizeAtT Xs⟩ is_train).1.data),
         backprop_fn concreteOps
           (layer ⟨paddedData Xs, sizeAtT Xs⟩ is_train).2)) :=
  ⟨sizeAtT_length_eq Xs, sizeAtT_nonincreasing Xs, fun _ _ => rfl⟩

/-- C6: `init` with both example batches absent performs no pad operation
(its result is the same for every ops table, even an always-failing one),
raises nothing, and passes `X = None`, `Y = None` to the inner layer's own
initialization routine. -/
theorem init_none_none :
    (∀ m : Model, init m none none = (none, none)) ∧
    (∀ (ε : Type) (ops : OpsE ε) (layer : LayerE ε),
      initE ops layer none none = layer.initFn none none) :=
  ⟨fun _ => rfl, fun _ _ _ => rfl⟩

/-- C7: empty batch — the modelled pad operation returns an empty padded
array and an empty active-count sequence, and both `forward` and its backward
closure map the empty collection to the empty collection, for every inner
layer. -/
theorem forward_backward_empty_batch (layer : Layer) (is_train : Bool) :
    (square_sequences []).1 = [] ∧
    (square_sequences []).2.1 = [] ∧
    (forward (mkModel layer) [] is_train).1 = [] ∧
    (forward (mkModel layer) [] is_train).2 [] = [] :=
  ⟨rfl, rfl, rfl, rfl⟩

/-- C8: the adapter adds no error handling: `forward`, the backward closure,
`_maybe_get_padded`, and `init` fail exactly when a collaborator fails, and
with the collaborator's error value unchanged — there is no retry, recovery,
or fallback path. -/
theorem error_propagation_unmodified (ε : Type) (ops : OpsE ε)
    (layer : LayerE ε) :
    (∀ (Xs : List Arr) (is_train : Bool) (e : ε),
      forwardE ops layer Xs is_train = .error e ↔
        ops.square_sequences Xs = .error e ∨
        ∃ r, ops.square_sequences Xs = .ok r ∧
          layer.call ⟨r.1, r.2.1⟩ is_train = .error e) ∧
    (∀ (bp : Padded → Except ε Padded) (dYs : List Arr) (e : ε),
      backprop_fnE ops bp dYs = .error e ↔
        ops.square_sequences dYs = .error e ∨
        ∃ r, ops.square_sequences dYs = .ok r ∧
          bp ⟨r.1, r.2.1⟩ = .error e) ∧
    (∀ (s : List Arr) (e : ε),
      (_maybe_get_paddedE ops (some s) = .error e ↔
        ops.square_sequences s = .error e) ∧
      _maybe_get_paddedE ops none = .ok none) ∧
    (∀ (X Y : Option (List Arr)) (e : ε),
      initE ops layer X Y = .error e ↔
        _maybe_get_paddedE ops X = .error e ∨
        ∃ px, _maybe_get_paddedE ops X = .ok px ∧
          (_maybe_get_paddedE ops Y = .error e ∨
           ∃ py, _maybe_get_paddedE ops Y = .ok py ∧
             layer.initFn px py = .error e)) := by
  refine ⟨?_, ?_, ?_, ?_⟩
  · intro Xs b e
    unfold forwardE
    rw [propagate_eq_error]
    refine or_congr Iff.rfl (exists_congr fun r => and_congr Iff.rfl ?_)
    exact propagate_ok_eq_error _ _ e
  · intro bp dYs e
    unfold backprop_fnE
    rw [propagate_eq_error]
    refine or_congr Iff.rfl (exists_congr fun r2 => and_congr Iff.rfl ?_)
    exact propagate_ok_eq_error _ _ e
  · intro s e
    constructor
    · unfold _maybe_get_paddedE
      exact propagate_ok_eq_error _ _ e
    · rfl
  · intro X Y e
    unfold initE
    rw [propagate_eq_error]
    refine or_congr Iff.rfl (exists_congr fun px => and_congr Iff.rfl ?_)
    exact propagate_eq_error _ _ e

/-- Witness for C8: with an always-failing pad operation, `forwardE` fails
with exactly the pad operation's error. -/
theorem error_propagation_unmodified_witness :
    forwardE failOps okLayerE [] true = .error "shape mismatch" :=
  ((error_propagation_unmodified String failOps okLayerE).1 [] true
    "shape mismatch").mpr (Or.inl rfl)

/-- C9: the adapter is deterministic and stateless — `forward` and `init` are
functions of the ops table, the layer list, and the call arguments alone; in
particular the model name has no behavioral effect and no data survives
between calls. -/
theorem adapter_deterministic_stateless (m₁ m₂ : Model) (Xs : List Arr)
    (is_train : Bool) (X Y : Option (List Arr))
    (hops : m₁.ops = m₂.ops) (hlayers : m₁.layers = m₂.layers) :
    forward m₁ Xs is_train = forward m₂ Xs is_train ∧
    init m₁ X Y = init m₂ X Y := by
  cases m₁
  cases m₂
  cases hops
  cases hlayers
  exact ⟨rfl, rfl⟩

/-- Witness for C9: two models differing only in name behave identically. -/
theorem adapter_deterministic_stateless_witness :
    forward ⟨"a", concreteOps, []⟩ [] true =
      forward ⟨"b", concreteOps, []⟩ [] true ∧
    init ⟨"a", concreteOps, []⟩ none none =
      init ⟨"b", concreteOps, []⟩ none none :=
  adapter_deterministic_stateless _ _ [] true none none rfl rfl

/-- C10: `forward` performs no shape validation on the inner layer's output:
the forward-side unpad function is applied directly to whatever data array
the inner layer returns, and the backward closure unpads the inner backward
result equally unchecked; with an inner layer that violates the padded-shape
precondition, the returned sequences no longer have the original shapes. -/
theorem forward_no_output_validation :
    (∀ (Yp : Padded) (bp : Padded → Padded) (Xs : List Arr) (is_train : Bool),
      (forward (mkModel fun _ _ => (Yp, bp)) Xs is_train).1 =
        unpadFn Xs Yp.data) ∧
    ((forward (mkModel badLayer) [[[(0 : Int)]]] true).1 = [[]] ∧
      ((forward (mkModel badLayer) [[[(0 : Int)]]] true).1).map shape1 ≠
        [[[(0 : Int)]]].map shape1) ∧
    ((forward (mkModel badLayer) [[[(0 : Int)]]] true).2 [[[(0 : Int)]]] =
        [[]] ∧
      (((forward (mkModel badLayer) [[[(0 : Int)]]] true).2
          [[[(0 : Int)]]]).map shape1) ≠ [[[(0 : Int)]]].map shape1) := by
  refine ⟨fun Yp bp Xs b => rfl, ⟨?_, ?_⟩, ⟨?_, ?_⟩⟩
  · decide
  · decide
  · decide
  · decide

end ThincList2Padded
